import Mathlib

/-
Verification of process_videos.py, a batch video rendering pipeline.

Pure fragments of the script are translated into executable Lean
definitions over List Char, Nat, Int and Rat (Python floats are modelled
exactly, as rationals).  The effectful per-project pipeline is modelled as
the trace of encoder invocations it issues together with the first
uncaught error, and the batch driver as a fold over that model.
-/

namespace ProcessVideos

/-
Timestamp extraction, from run_ffmpeg_with_progress (src lines 27-36).
The script scans each stderr line with the regular expression

  time=(\d+):(\d+):(\d+).(\d+)

(note the unescaped dot, which matches any character except a newline)
using re.search, and converts the four groups to seconds as
int(h)*3600 + int(m)*60 + int(s) + int(ms)/100.0 .
-/

/-- Numeric value of a digit run, as Python int() of a matched group. -/
def natOfDigits (ds : List Char) : ℕ :=
  ds.foldl (fun n c => 10 * n + (c.toNat - 48)) 0

/-- Consume the literal pattern head time= at the current position. -/
def dropTimeEq : List Char → Option (List Char)
  | a :: b :: c :: d :: e :: rest =>
    if a = 't' ∧ b = 'i' ∧ c = 'm' ∧ d = 'e' ∧ e = '=' then some rest else none
  | _ => none

/-- The five characters of the literal time= . -/
def timeEq : List Char := ['t', 'i', 'm', 'e', '=']

/-- One (\d+): fragment: a maximal nonempty digit run followed by a colon
(the colon forces the greedy digit run to stop exactly before it). -/
def matchNum (l : List Char) : Option (ℕ × List Char) :=
  match l.dropWhile Char.isDigit with
  | r :: rest =>
    if l.takeWhile Char.isDigit ≠ [] ∧ r = ':' then
      some (natOfDigits (l.takeWhile Char.isDigit), rest)
    else none
  | [] => none

/-- The trailing .(\d+) fragment, where c is the character consumed by the
unescaped dot: any character but a newline, then a maximal nonempty digit
run. -/
def matchFrac (c : Char) (l : List Char) : Option ℕ :=
  if c = '\n' then none
  else
    let fs := l.takeWhile Char.isDigit
    if fs = [] then none else some (natOfDigits fs)

/-- The (\d+).(\d+) tail of the pattern with the backtracking the regex
engine performs: the third group is greedy, and gives characters back one
at a time (longest first) until the dot and the fourth group can match. -/
def matchSec (acc : List Char) : List Char → Option (ℕ × ℕ)
  | [] => none
  | c :: cs =>
    if c.isDigit then
      match matchSec (acc ++ [c]) cs with
      | some r => some r
      | none =>
        if acc = [] then none
        else (matchFrac c cs).map (fun f => (natOfDigits acc, f))
    else
      if acc = [] then none
      else (matchFrac c cs).map (fun f => (natOfDigits acc, f))

/-- The group part of the pattern after the literal time= .  The script
computes the float int(h)*3600 + int(m)*60 + int(s) + int(ms)/100.0 ; we
carry its exact integer numerator in centiseconds,
(h*3600 + m*60 + s)*100 + f, and divide by 100 at the boundary below. -/
def matchGroups (l : List Char) : Option ℕ :=
  match matchNum l with
  | none => none
  | some (h, r1) =>
    match matchNum r1 with
    | none => none
    | some (m, r2) =>
      match matchSec [] r2 with
      | none => none
      | some (s, f) => some ((h * 3600 + m * 60 + s) * 100 + f)

/-- Attempt the whole pattern at one position of the line. -/
def matchTimestampAt (l : List Char) : Option ℕ :=
  match dropTimeEq l with
  | some rest => matchGroups rest
  | none => none

/-- re.search: the match at the leftmost position where the pattern
succeeds. -/
def searchCentis : List Char → Option ℕ
  | [] => none
  | c :: cs =>
    match matchTimestampAt (c :: cs) with
    | some v => some v
    | none => searchCentis cs

/-- The Python guard "time=" in line (substring containment). -/
def containsTimeEq : List Char → Bool
  | [] => false
  | c :: cs => (dropTimeEq (c :: cs)).isSome || containsTimeEq cs

/-- Centiseconds the progress loop extracts from one stderr line: the
loop body runs only when "time=" occurs in the line, then applies
re.search with the pattern above. -/
def lineCentis (line : List Char) : Option ℕ :=
  if containsTimeEq line then searchCentis line else none

/-- Seconds value the script computes for one line,
int(h)*3600 + int(m)*60 + int(s) + int(ms)/100.0, as the exact rational
centiseconds/100. -/
def lineSeconds (line : List Char) : Option ℚ :=
  (lineCentis line).map (fun n : ℕ => (n : ℚ) / 100)

/-- The successive values published to the progress bar over one run with
a supplied (truthy) total duration T: for every line with a match the
script sets pbar.n = min(seconds, total_duration). -/
def publishedValues (lines : List (List Char)) (T : ℚ) : List ℚ :=
  lines.filterMap (fun l => (lineSeconds l).map (fun s => min s T))

/-
Media probing (get_stream_info, src lines 65-80).
fps = num / den if den != 0 else 25
-/

/-- Frame-rate computation from the parsed rational pair num/den. -/
def parseFps (num den : ℤ) : ℚ :=
  if den ≠ 0 then (num : ℚ) / (den : ℚ) else 25

/-
Filter graph offsets (build_crossfade_filter, src lines 85-89).
  offset1 = intro_visible
  offset2 = offset1 + main_duration - crossfade_dur
-/

/-- The two xfade offsets computed by build_crossfade_filter. -/
def crossfadeOffsets (main_duration intro_visible crossfade_dur : ℚ) : ℚ × ℚ :=
  (intro_visible, intro_visible + main_duration - crossfade_dur)

/-
Codec selection (process_project, src lines 148-166): an if/elif/else on
the codec string; every string other than "h265" and "h264" falls into the
default hevc_nvenc branch.
-/

/-- The -c:v argument fragment selected for the composite render. -/
def selectVcodec (codec : String) : List String :=
  if codec = "h265" then
    ["-c:v", "libx265", "-pix_fmt", "yuv420p", "-x265-params", "crf=28"]
  else if codec = "h264" then
    ["-c:v", "h264_nvenc", "-pix_fmt", "yuv420p"]
  else
    ["-c:v", "hevc_nvenc", "-preset", "p7", "-tune", "hq", "-pix_fmt", "yuv420p"]

/-
Pipeline model (process_project, src lines 108-182, and main, 187-203).

A Project records what the filesystem and the external tools would answer
for one project directory: whether the glob *.mp4 finds a main video,
whether intro.png / outro.png exist, what ffprobe reports (none modelling
a ProbeError, i.e. a CalledProcessError from subprocess.run(check=True)),
and the exit codes of the two ffmpeg invocations.
-/

structure Project where
  name : String
  hasMainVideo : Bool
  hasIntro : Bool
  hasOutro : Bool
  rawDurationProbe : Option ℚ
  normalizeExit : ℤ
  normDurationProbe : Option ℚ
  streamProbe : Option (ℤ × ℤ × ℤ × ℤ)
  compositeExit : ℤ
deriving DecidableEq

/-- The recoverable per-project errors of the error taxonomy: a non-zero
encoder exit (subprocess.CalledProcessError raised by
run_ffmpeg_with_progress) or an ffprobe failure. -/
inductive PError where
  | processError (exitCode : ℤ)
  | probeError
deriving DecidableEq

/-- One run_ffmpeg_with_progress invocation: its desc label, the
total_duration hint handed to the progress bar, the output path (as path
components) and the video codec fragment of its argument list (empty for
the normalization pass, which sets no -c:v). -/
structure Invocation where
  desc : String
  total : ℚ
  output : List String
  vcodec : List String
deriving DecidableEq

/-- process_project (src lines 108-182): the trace of encoder invocations
it issues, paired with the error it raises, if any.  The function body has
no try/except, so the first CalledProcessError (from a probe or an
encoder exit) ends the trace; missing inputs return normally after the
two mkdir calls. -/
def processProject (p : Project) (codec : String) : List Invocation × Option PError :=
  if p.hasMainVideo = false then ([], none)
  else if p.hasIntro = false ∨ p.hasOutro = false then ([], none)
  else
    match p.rawDurationProbe with
    | none => ([], some PError.probeError)
    | some rawDur =>
      let normInv : Invocation :=
        ⟨"Normalizing", rawDur, [p.name, "02_Work", "normalized.mp4"], []⟩
      if p.normalizeExit ≠ 0 then ([normInv], some (PError.processError p.normalizeExit))
      else
        match p.normDurationProbe with
        | none => ([normInv], some PError.probeError)
        | some mainDur =>
          match p.streamProbe with
          | none => ([normInv], some PError.probeError)
          | some _ =>
            let compInv : Invocation :=
              ⟨"Rendering", mainDur + 8,
               [p.name, "03_Final", p.name ++ "_final.mp4"], selectVcodec codec⟩
            if p.compositeExit ≠ 0 then
              ([normInv, compInv], some (PError.processError p.compositeExit))
            else ([normInv, compInv], none)

/-- Output paths an invocation trace writes under the 03_Final directory. -/
def finalDirOutputs (tr : List Invocation) : List (List String) :=
  (tr.map (fun i => i.output)).filter (fun path => path.contains "03_Final")

/-- The batch loop of main (src lines 201-203): process_project is called
on each directory in turn with no surrounding try/except, so an error
raised by one project ends the loop (the exception propagates out of
main). -/
def runBatch (codec : String) : List Project → List (String × List Invocation) × Option PError
  | [] => ([], none)
  | p :: rest =>
    match (processProject p codec).2 with
    | some e => ([(p.name, (processProject p codec).1)], some e)
    | none =>
      let r := runBatch codec rest
      ((p.name, (processProject p codec).1) :: r.1, r.2)

/-- Process exit status of main (src lines 187-203): sys.exit(1) when the
VID folder is absent; otherwise 0 on a normal return, and 1 when an
exception raised inside the batch loop reaches the interpreter
(CPython terminates with status 1 on an uncaught exception). -/
def mainExitCode (vid : Option (List Project)) (codec : String) : ℤ :=
  match vid with
  | none => 1
  | some ps =>
    match (runBatch codec ps).2 with
    | none => 0
    | some _ => 1

/-
Auxiliary predicates used to state properties about lines and markers.
-/

/-- Bool: p is an initial segment of l. -/
def beginsWith : List Char → List Char → Bool
  | [], _ => true
  | _ :: _, [] => false
  | a :: as, b :: bs => if a = b then beginsWith as bs else false

/-- Bool: p occurs as a contiguous substring of l. -/
def containsSeq (p : List Char) : List Char → Bool
  | [] => p.isEmpty
  | c :: cs => beginsWith p (c :: cs) || containsSeq p cs

/-- Bool: the list is empty or does not start with a digit (used to mark
where a greedy digit run must stop). -/
def headNotDigit : List Char → Bool
  | [] => true
  | c :: _ => !c.isDigit

/-- Refinement-side definition following the words of the spec: the text
of a timestamp marker of the form time=HH:MM:SS.CC, with a literal dot
between the seconds and centiseconds fields. -/
def specMarkerString (hs ms ss cs : List Char) : List Char :=
  timeEq ++ hs ++ ':' :: ms ++ ':' :: ss ++ '.' :: cs

/-- Refinement-side definition following the words of the spec: the line
contains a valid timestamp marker time=HH:MM:SS.CC (two-digit fields,
literal dot) whose fields read as the numbers h, m, s, cc. -/
def specMarkerPresent (line : List Char) (h m s cc : ℕ) : Prop :=
  ∃ hs ms ss cs : List Char,
    hs.length = 2 ∧ ms.length = 2 ∧ ss.length = 2 ∧ cs.length = 2 ∧
    (hs ++ ms ++ ss ++ cs).all Char.isDigit = true ∧
    natOfDigits hs = h ∧ natOfDigits ms = m ∧ natOfDigits ss = s ∧
    natOfDigits cs = cc ∧
    containsSeq (specMarkerString hs ms ss cs) line = true

/-
Concrete sample inputs used for counterexamples and witnesses.
-/

/-- A stderr line with the in-range marker 00:00:10.00 . -/
def lineA : List Char := "time=00:00:10.00".data

/-- A stderr line with the in-range marker 00:00:05.00 . -/
def lineB : List Char := "time=00:00:05.00".data

/-- A line whose first pattern match (one-digit fields) precedes a valid
two-digit marker. -/
def lineMixed : List Char := "time=1:2:3.4 time=00:00:05.00".data

/-- A line with an x where the marker dot should be: not a valid
time=HH:MM:SS.CC marker, but matched by the unescaped-dot pattern. -/
def lineNoDot : List Char := "time=00:00:03x50".data

/-- A project whose two encoder passes and three probes all succeed. -/
def projOk : Project := ⟨"B", true, true, true, some 10, 0, some 10, some (1920, 1080, 30, 1), 0⟩

/-- A project whose normalization pass exits with status 1. -/
def projFail : Project := ⟨"A", true, true, true, some 10, 1, some 10, some (1920, 1080, 30, 1), 0⟩

/-- A project directory that contains no main *.mp4 video. -/
def projSkip : Project := ⟨"S", false, true, true, none, 0, none, none, 0⟩

/-- The end-to-end scenario project of the spec: Demo, with main.mp4 of
probed duration 20.0 both before and after normalization, 1920x1080 at
30/1 fps, and both encoder passes succeeding. -/
def projDemo : Project := ⟨"Demo", true, true, true, some 20, 0, some 20, some (1920, 1080, 30, 1), 0⟩

/-
Lemmas about the timestamp extraction.
-/

/-- A maximal digit run: takeWhile and dropWhile split ds ++ rest at the
boundary when ds is all digits and rest does not start with one. -/
lemma digitRun_split (ds rest : List Char) (hds : ds.all Char.isDigit = true)
    (hrest : headNotDigit rest = true) :
    (ds ++ rest).takeWhile Char.isDigit = ds ∧
      (ds ++ rest).dropWhile Char.isDigit = rest := by
  induction ds with
  | nil =>
    cases rest with
    | nil => simp
    | cons c cs =>
      simp only [headNotDigit, Bool.not_eq_true'] at hrest
      simp [List.takeWhile_cons, List.dropWhile_cons, hrest]
  | cons d ds ih =>
    simp only [List.all_cons, Bool.and_eq_true] at hds
    have h := ih hds.2
    simp [List.takeWhile_cons, List.dropWhile_cons, hds.1, h.1, h.2]

/-- matchNum on a nonempty digit run followed by a colon. -/
lemma matchNum_run (ds rest : List Char) (hne : ds ≠ [])
    (hds : ds.all Char.isDigit = true) :
    matchNum (ds ++ ':' :: rest) = some (natOfDigits ds, rest) := by
  have h := digitRun_split ds (':' :: rest) hds rfl
  simp [matchNum, h.1, h.2, hne]

/-- matchFrac on a dot-position character followed by a digit run. -/
lemma matchFrac_run (c : Char) (fs rest : List Char) (hcn : c ≠ '\n')
    (hne : fs ≠ []) (hfs : fs.all Char.isDigit = true)
    (hrest : headNotDigit rest = true) :
    matchFrac c (fs ++ rest) = some (natOfDigits fs) := by
  have h := digitRun_split fs rest hfs hrest
  simp [matchFrac, hcn, h.1, hne]

/-- matchSec on a digit run, a non-digit non-newline character, and a
digit run: the greedy third group never needs to backtrack here. -/
lemma matchSec_run : ∀ (ss acc : List Char) (c : Char) (fs rest : List Char),
    ss.all Char.isDigit = true → acc ++ ss ≠ [] → c.isDigit = false →
    c ≠ '\n' → fs ≠ [] → fs.all Char.isDigit = true →
    headNotDigit rest = true →
    matchSec acc (ss ++ c :: (fs ++ rest)) =
      some (natOfDigits (acc ++ ss), natOfDigits fs) := by
  intro ss
  induction ss with
  | nil =>
    intro acc c fs rest _ hacc hc hcn hfs_ne hfs hrest
    have hfr := matchFrac_run c fs rest hcn hfs_ne hfs hrest
    simp only [List.append_nil] at hacc
    simp [matchSec, hc, hacc, hfr]
  | cons d ds ih =>
    intro acc c fs rest hss hacc hc hcn hfs_ne hfs hrest
    simp only [List.all_cons, Bool.and_eq_true] at hss
    have h := ih (acc ++ [d]) c fs rest hss.2 (by simp) hc hcn hfs_ne hfs hrest
    simp only [List.cons_append]
    simp [matchSec, hss.1, h, List.append_assoc]

/-- matchGroups on the fully structured tail of a marker. -/
lemma matchGroups_run (hs ms ss fs suf : List Char) (c : Char)
    (hhs_ne : hs ≠ []) (hhs : hs.all Char.isDigit = true)
    (hms_ne : ms ≠ []) (hms : ms.all Char.isDigit = true)
    (hss_ne : ss ≠ []) (hss : ss.all Char.isDigit = true)
    (hc : c.isDigit = false) (hcn : c ≠ '\n')
    (hfs_ne : fs ≠ []) (hfs : fs.all Char.isDigit = true)
    (hsuf : headNotDigit suf = true) :
    matchGroups (hs ++ ':' :: (ms ++ ':' :: (ss ++ c :: (fs ++ suf)))) =
      some ((natOfDigits hs * 3600 + natOfDigits ms * 60 + natOfDigits ss) * 100 +
        natOfDigits fs) := by
  have h1 := matchNum_run hs (ms ++ ':' :: (ss ++ c :: (fs ++ suf))) hhs_ne hhs
  have h2 := matchNum_run ms (ss ++ c :: (fs ++ suf)) hms_ne hms
  have h3 := matchSec_run ss [] c fs suf hss (by simpa using hss_ne) hc hcn hfs_ne hfs hsuf
  simp only [List.nil_append] at h3
  simp [matchGroups, h1, h2, h3]

/-- dropTimeEq succeeds on an explicit time= head. -/
lemma dropTimeEq_cons (r : List Char) :
    dropTimeEq ('t' :: 'i' :: 'm' :: 'e' :: '=' :: r) = some r := by
  simp [dropTimeEq]

/-- dropTimeEq succeeds right after the literal marker head. -/
lemma dropTimeEq_append (r : List Char) : dropTimeEq (timeEq ++ r) = some r := by
  simp only [timeEq, List.cons_append, List.nil_append]
  exact dropTimeEq_cons r

/-- Inversion: a successful dropTimeEq means the line starts with time= . -/
lemma dropTimeEq_eq_some {l r : List Char} (h : dropTimeEq l = some r) :
    l = timeEq ++ r := by
  rcases l with _ | ⟨a, _ | ⟨b, _ | ⟨c, _ | ⟨d, _ | ⟨e, rest⟩⟩⟩⟩⟩
  · simp [dropTimeEq] at h
  · simp [dropTimeEq] at h
  · simp [dropTimeEq] at h
  · simp [dropTimeEq] at h
  · simp [dropTimeEq] at h
  · simp only [dropTimeEq] at h
    split_ifs at h with hcond
    obtain ⟨rfl, rfl, rfl, rfl, rfl⟩ := hcond
    simp only [Option.some.injEq] at h
    subst h
    rfl

/-- The literal time= cannot straddle the boundary before an occurrence
of itself: a match starting strictly earlier must start within p2. -/
lemma timeEq_overlap {p2 tail r : List Char} (hne : p2 ≠ [])
    (h : p2 ++ (timeEq ++ tail) = timeEq ++ r) : ∃ l2, p2 = timeEq ++ l2 := by
  rcases p2 with _ | ⟨a, _ | ⟨b, _ | ⟨c, _ | ⟨d, _ | ⟨e, p2t⟩⟩⟩⟩⟩
  · exact absurd rfl hne
  · simp [timeEq, List.cons_append, List.cons.injEq] at h
  · simp [timeEq, List.cons_append, List.cons.injEq] at h
  · simp [timeEq, List.cons_append, List.cons.injEq] at h
  · simp [timeEq, List.cons_append, List.cons.injEq] at h
  · simp only [timeEq, List.cons_append, List.nil_append, List.cons.injEq] at h
    obtain ⟨rfl, rfl, rfl, rfl, rfl, -⟩ := h
    exact ⟨p2t, rfl⟩

/-- One-step unfolding of searchCentis on a cons cell. -/
lemma searchCentis_cons (c : Char) (cs : List Char) :
    searchCentis (c :: cs) =
      match matchTimestampAt (c :: cs) with
      | some v => some v
      | none => searchCentis cs := rfl

/-- One-step unfolding of containsTimeEq on a cons cell. -/
lemma containsTimeEq_cons (c : Char) (cs : List Char) :
    containsTimeEq (c :: cs) =
      ((dropTimeEq (c :: cs)).isSome || containsTimeEq cs) := rfl

/-- re.search skips a line stretch that contains no time= occurrence. -/
lemma searchCentis_skip : ∀ (pre tail : List Char),
    containsTimeEq pre = false →
    searchCentis (pre ++ (timeEq ++ tail)) = searchCentis (timeEq ++ tail) := by
  intro pre
  induction pre with
  | nil => intro tail _; simp
  | cons c cs ih =>
    intro tail hpre
    simp only [containsTimeEq, Bool.or_eq_false_iff] at hpre
    have hnone : matchTimestampAt (c :: (cs ++ (timeEq ++ tail))) = none := by
      simp only [matchTimestampAt]
      cases hd : dropTimeEq (c :: (cs ++ (timeEq ++ tail))) with
      | none => rfl
      | some r =>
        have hform := dropTimeEq_eq_some hd
        have hover : ∃ l2, (c :: cs) = timeEq ++ l2 := by
          apply @timeEq_overlap (c :: cs) tail r (by simp)
          simpa [List.append_assoc] using hform
        obtain ⟨l2, hl2⟩ := hover
        have hsome : (dropTimeEq (c :: cs)).isSome = true := by
          rw [hl2, dropTimeEq_append]
          rfl
        rw [hpre.1] at hsome
        exact absurd hsome (by simp)
    rw [List.cons_append, searchCentis_cons, hnone]
    exact ih tail hpre.2

/-- A line of the shape x ++ time= ++ y passes the "time=" in line guard. -/
lemma containsTimeEq_marker (x y : List Char) :
    containsTimeEq (x ++ (timeEq ++ y)) = true := by
  induction x with
  | nil =>
    rw [List.nil_append,
      show timeEq ++ y = 't' :: 'i' :: 'm' :: 'e' :: '=' :: y from rfl,
      containsTimeEq_cons, dropTimeEq_cons]
    rfl
  | cons c cs ih =>
    rw [List.cons_append, containsTimeEq_cons, ih, Bool.or_true]

/-- The centiseconds the loop extracts from a line whose first time=
occurrence heads a fully structured match of the pattern. -/
lemma lineCentis_marker (pre hs ms ss fs suf : List Char) (c : Char)
    (hpre : containsTimeEq pre = false)
    (hhs_ne : hs ≠ []) (hhs : hs.all Char.isDigit = true)
    (hms_ne : ms ≠ []) (hms : ms.all Char.isDigit = true)
    (hss_ne : ss ≠ []) (hss : ss.all Char.isDigit = true)
    (hc : c.isDigit = false) (hcn : c ≠ '\n')
    (hfs_ne : fs ≠ []) (hfs : fs.all Char.isDigit = true)
    (hsuf : headNotDigit suf = true) :
    lineCentis (pre ++ (timeEq ++ (hs ++ ':' :: (ms ++ ':' :: (ss ++ c :: (fs ++ suf)))))) =
      some ((natOfDigits hs * 3600 + natOfDigits ms * 60 + natOfDigits ss) * 100 +
        natOfDigits fs) := by
  have hcontains := containsTimeEq_marker pre
    (hs ++ ':' :: (ms ++ ':' :: (ss ++ c :: (fs ++ suf))))
  have hskip := searchCentis_skip pre
    (hs ++ ':' :: (ms ++ ':' :: (ss ++ c :: (fs ++ suf)))) hpre
  have hgroups := matchGroups_run hs ms ss fs suf c hhs_ne hhs hms_ne hms
    hss_ne hss hc hcn hfs_ne hfs hsuf
  simp only [lineCentis, hcontains, if_true]
  rw [hskip,
    show timeEq ++ (hs ++ ':' :: (ms ++ ':' :: (ss ++ c :: (fs ++ suf)))) =
      't' :: 'i' :: 'm' :: 'e' :: '=' ::
        (hs ++ ':' :: (ms ++ ':' :: (ss ++ c :: (fs ++ suf)))) from rfl,
    searchCentis_cons]
  simp only [matchTimestampAt, dropTimeEq_cons, hgroups]

/-- Every character of an initial segment occurs in the list. -/
lemma beginsWith_mem : ∀ (p l : List Char), beginsWith p l = true →
    ∀ a ∈ p, a ∈ l := by
  intro p
  induction p with
  | nil => intro l _ a ha; simp at ha
  | cons x xs ih =>
    intro l hb a ha
    cases l with
    | nil => simp [beginsWith] at hb
    | cons y ys =>
      simp only [beginsWith] at hb
      split_ifs at hb with hxy
      rcases List.mem_cons.mp ha with rfl | hxs
      · subst hxy; exact List.mem_cons_self a ys
      · exact List.mem_cons_of_mem y (ih ys hb a hxs)

/-- Every character of a contiguous substring occurs in the list. -/
lemma containsSeq_mem : ∀ (p l : List Char), containsSeq p l = true →
    ∀ a ∈ p, a ∈ l := by
  intro p l
  induction l with
  | nil =>
    intro h a ha
    cases p with
    | nil => simp at ha
    | cons x xs => simp [containsSeq, List.isEmpty] at h
  | cons c cs ih =>
    intro h a ha
    rw [show containsSeq p (c :: cs) =
        (beginsWith p (c :: cs) || containsSeq p cs) from rfl,
      Bool.or_eq_true] at h
    rcases h with hb | hc
    · exact beginsWith_mem p (c :: cs) hb a ha
    · exact List.mem_cons_of_mem c (ih hc a ha)

/-
The claims.
-/

/-- Claim C4 (confirmed): for all mainDuration > crossfadeDur, the two
crossfade offsets computed by build_crossfade_filter satisfy
offset1 = introVisible, offset2 = offset1 + mainDuration - crossfadeDur,
and offset2 - offset1 = mainDuration - crossfadeDur. -/
theorem crossfade_offset_invariant :
    ∀ main_duration intro_visible crossfade_dur : ℚ,
      crossfade_dur < main_duration →
      (crossfadeOffsets main_duration intro_visible crossfade_dur).1 = intro_visible ∧
      (crossfadeOffsets main_duration intro_visible crossfade_dur).2 =
        (crossfadeOffsets main_duration intro_visible crossfade_dur).1 +
          main_duration - crossfade_dur ∧
      (crossfadeOffsets main_duration intro_visible crossfade_dur).2 -
        (crossfadeOffsets main_duration intro_visible crossfade_dur).1 =
          main_duration - crossfade_dur := by
  intro m iv cd _
  refine ⟨rfl, rfl, ?_⟩
  show iv + m - cd - iv = m - cd
  ring

/-- Witness for C4 at mainDuration 20, introVisible 4, crossfadeDur 1. -/
theorem crossfade_offset_invariant_witness :
    (crossfadeOffsets 20 4 1).2 - (crossfadeOffsets 20 4 1).1 = 20 - 1 :=
  (crossfade_offset_invariant 20 4 1 (by norm_num)).2.2

/-- Claim C7 (confirmed): the frame-rate parse of get_stream_info returns
the default 25 when the denominator is 0, for every numerator, and
num/den otherwise. -/
theorem framerate_fallback :
    ∀ num den : ℤ,
      (den = 0 → parseFps num den = 25) ∧
      (den ≠ 0 → parseFps num den = (num : ℚ) / (den : ℚ)) := by
  intro num den
  constructor
  · intro h; simp [parseFps, h]
  · intro h; simp [parseFps, h]

/-- Witness for C7 at 30/0 (fallback) and 60/2 (ordinary division). -/
theorem framerate_fallback_witness :
    parseFps 30 0 = 25 ∧ parseFps 60 2 = (60 : ℚ) / (2 : ℚ) :=
  ⟨(framerate_fallback 30 0).1 rfl, (framerate_fallback 60 2).2 (by norm_num)⟩

/-- Claim C10 (confirmed): every codec string other than h265 and h264
falls through to the default hardware-HEVC configuration
(hevc_nvenc, preset p7, tune hq); no unknown name is rejected. -/
theorem unknown_codec_defaults :
    ∀ codec : String, codec ≠ "h265" → codec ≠ "h264" →
      selectVcodec codec =
        ["-c:v", "hevc_nvenc", "-preset", "p7", "-tune", "hq", "-pix_fmt", "yuv420p"] := by
  intro codec h1 h2
  simp [selectVcodec, h1, h2]

/-- Witness for C10 at the misspelt codec name hevc. -/
theorem unknown_codec_defaults_witness :
    selectVcodec "hevc" =
      ["-c:v", "hevc_nvenc", "-preset", "p7", "-tune", "hq", "-pix_fmt", "yuv420p"] :=
  unknown_codec_defaults "hevc" (by decide) (by decide)

/-- Claim C1 is false as stated: a recoverable ProcessError raised while
processing project A (normalization exit status 1) escapes
processProject — its error component is not none — and the sibling
project B of the same batch is never processed (only A appears in the
batch trace). -/
theorem project_error_escapes_cex :
    (processProject projFail "x").2 = some (PError.processError 1) ∧
    (runBatch "x" [projFail, projOk]).1.map Prod.fst = ["A"] :=
  ⟨by decide, by decide⟩

/-- Claim C1 (amended): processProject does not catch recoverable
errors; whenever it ends in an error, that error propagates out of the
batch loop, which stops at the failing project, leaving every remaining
sibling project unprocessed. -/
theorem project_error_propagates_and_stops_batch :
    ∀ (p : Project) (rest : List Project) (codec : String) (e : PError),
      (processProject p codec).2 = some e →
      runBatch codec (p :: rest) =
        ([(p.name, (processProject p codec).1)], some e) := by
  intro p rest codec e h
  simp [runBatch, h]

/-- Witness for the amended C1 at the failing project A followed by B. -/
theorem project_error_propagates_witness :
    runBatch "x" [projFail, projOk] =
      ([("A", (processProject projFail "x").1)], some (PError.processError 1)) :=
  project_error_propagates_and_stops_batch projFail [projOk] "x"
    (PError.processError 1) (by decide)

/-- Claim C2 is false as stated: with the VID folder present and a single
project that fails with a recoverable ProcessError, the process exit
status is 1, not 0. -/
theorem exit_status_cex :
    mainExitCode (some [projFail]) "x" = 1 ∧
    (processProject projFail "x").2 = some (PError.processError 1) :=
  ⟨by decide, by decide⟩

/-- Claim C2 (amended): the exit status is 1 when the VID folder is
absent; with the folder present it is 0 exactly when no project raised a
ProcessError/ProbeError, and a project skipped for missing inputs raises
nothing (so skips still yield exit status 0). -/
theorem exit_code_amended :
    ∀ codec : String,
      mainExitCode none codec = 1 ∧
      (∀ ps : List Project,
        mainExitCode (some ps) codec = 0 ↔ (runBatch codec ps).2 = none) ∧
      (∀ p : Project, p.hasMainVideo = false → processProject p codec = ([], none)) := by
  intro codec
  refine ⟨rfl, fun ps => ?_, fun p hp => ?_⟩
  · cases h : (runBatch codec ps).2 with
    | none => simp [mainExitCode, h]
    | some e => simp [mainExitCode, h]
  · simp [processProject, hp]

/-- Witness for the amended C2: absent VID folder, the failing batch, and
a skipped project. -/
theorem exit_code_amended_witness :
    mainExitCode none "x" = 1 ∧
    (mainExitCode (some [projFail]) "x" = 0 ↔ (runBatch "x" [projFail]).2 = none) ∧
    processProject projSkip "x" = ([], none) :=
  ⟨(exit_code_amended "x").1, (exit_code_amended "x").2.1 [projFail],
    (exit_code_amended "x").2.2 projSkip (by decide)⟩

/-- Claim C8 (confirmed): a project missing the main video, the intro
image or the outro image is skipped: processProject issues no encoder
invocation and returns no error, nothing is written under its 03_Final
directory, and the batch continues over the remaining projects
unchanged. -/
theorem missing_inputs_skip :
    ∀ (p : Project) (codec : String) (rest : List Project),
      (p.hasMainVideo = false ∨ p.hasIntro = false ∨ p.hasOutro = false) →
      processProject p codec = ([], none) ∧
      finalDirOutputs (processProject p codec).1 = [] ∧
      runBatch codec (p :: rest) =
        ((p.name, []) :: (runBatch codec rest).1, (runBatch codec rest).2) := by
  intro p codec rest h
  have hp : processProject p codec = ([], none) := by
    rcases h with h | h | h
    · simp [processProject, h]
    · by_cases hm : p.hasMainVideo = false
      · simp [processProject, hm]
      · simp [processProject, hm, h]
    · by_cases hm : p.hasMainVideo = false
      · simp [processProject, hm]
      · simp [processProject, hm, h]
  refine ⟨hp, by simp [finalDirOutputs, hp], ?_⟩
  simp [runBatch, hp]

/-- Witness for C8 at project S (no main video) followed by project B. -/
theorem missing_inputs_skip_witness :
    processProject projSkip "x" = ([], none) ∧
    finalDirOutputs (processProject projSkip "x").1 = [] ∧
    runBatch "x" [projSkip, projOk] =
      (("S", []) :: (runBatch "x" [projOk]).1, (runBatch "x" [projOk]).2) :=
  missing_inputs_skip projSkip "x" [projOk] (Or.inl (by decide))

/-- Claim C9 (confirmed): for the Demo project (main video of probed raw
and normalized duration 20.0, intro.png, outro.png) under the default
codec policy, process_project issues exactly one normalization invocation
with total-duration hint 20, exactly one composite invocation with
total-duration hint 28 = 20 + 8, and the final file
Demo/03_Final/Demo_final.mp4 . -/
theorem demo_end_to_end :
    processProject projDemo "h265_nvenc" =
      ([⟨"Normalizing", 20, ["Demo", "02_Work", "normalized.mp4"], []⟩,
        ⟨"Rendering", 28, ["Demo", "03_Final", "Demo_final.mp4"],
         ["-c:v", "hevc_nvenc", "-preset", "p7", "-tune", "hq", "-pix_fmt", "yuv420p"]⟩],
       none) := by
  simp only [processProject, selectVcodec, projDemo]
  norm_num
  exact ⟨by decide, by decide⟩

/-- Claim C3 is false as stated: with total duration 20 and the
well-formed markers 00:00:10.00 followed by 00:00:05.00 (out of order),
the published progress values are 10 then 5 — not monotonically
non-decreasing. -/
theorem progress_not_monotone_cex :
    ¬ List.Chain' (· ≤ ·) (publishedValues [lineA, lineB] 20) := by
  have hA : lineCentis lineA = some 1000 := by decide
  have hB : lineCentis lineB = some 500 := by decide
  have heq : publishedValues [lineA, lineB] 20 = [10, 5] := by
    simp only [publishedValues, List.filterMap_cons, List.filterMap_nil,
      lineSeconds, hA, hB, Option.map_some']
    norm_num [min_def]
  rw [heq]
  simp only [List.chain'_cons, List.chain'_singleton, and_true]
  norm_num

/-- Claim C3 (amended): each published value is min(parsedSeconds,
totalSeconds), so the published sequence is monotonically non-decreasing
whenever the parsed timestamps of the stream appear in non-decreasing
order; the runner does not itself enforce monotonicity against
out-of-order markers. -/
theorem progress_monotone_for_ordered_streams :
    ∀ (lines : List (List Char)) (T : ℚ),
      List.Chain' (· ≤ ·) (lines.filterMap lineSeconds) →
      List.Chain' (· ≤ ·) (publishedValues lines T) := by
  have heq : ∀ (lines : List (List Char)) (T : ℚ), publishedValues lines T =
      (lines.filterMap lineSeconds).map (fun s => min s T) := by
    intro lines T
    induction lines with
    | nil => rfl
    | cons l ls ih =>
      simp only [publishedValues] at ih ⊢
      cases hl : lineSeconds l with
      | none => simp [List.filterMap_cons, hl, ih]
      | some s => simp [List.filterMap_cons, hl, ih]
  intro lines T h
  rw [heq, List.chain'_map]
  exact List.Chain'.imp (fun a b hab => min_le_min hab le_rfl) h

/-- Witness for the amended C3: the in-order stream 5 then 10 with total
duration 7 publishes a non-decreasing sequence. -/
theorem progress_monotone_witness :
    List.Chain' (· ≤ ·) (publishedValues [lineB, lineA] 7) := by
  apply progress_monotone_for_ordered_streams
  have hA : lineCentis lineA = some 1000 := by decide
  have hB : lineCentis lineB = some 500 := by decide
  simp only [List.filterMap_cons, List.filterMap_nil, lineSeconds, hA, hB,
    Option.map_some', List.chain'_cons, List.chain'_singleton, and_true]
  norm_num

/-- Claim C6 (confirmed): with a positive supplied total duration, every
published intermediate progress value c satisfies 0 <= c <= total, for
every sequence of stderr lines, including timestamps past the total. -/
theorem published_values_clamped :
    ∀ (lines : List (List Char)) (T : ℚ), 0 < T →
      ∀ c ∈ publishedValues lines T, 0 ≤ c ∧ c ≤ T := by
  intro lines T hT c hc
  obtain ⟨l, -, hl⟩ := List.mem_filterMap.mp hc
  cases hn : lineCentis l with
  | none => simp [lineSeconds, hn] at hl
  | some n =>
    have hls : lineSeconds l = some ((n : ℚ) / 100) := by
      rw [lineSeconds, hn]
      rfl
    simp only [hls, Option.map_some', Option.some.injEq] at hl
    subst hl
    constructor
    · exact le_min (by positivity) hT.le
    · exact min_le_right _ _

/-- Witness for C6: the value published for the marker 00:00:10.00
against total 7 lies within the clamp bounds. -/
theorem published_values_clamped_witness :
    0 ≤ min (10 : ℚ) 7 ∧ min (10 : ℚ) 7 ≤ 7 :=
  published_values_clamped [lineA] 7 (by norm_num) (min (10 : ℚ) 7) (by
    have h : lineCentis lineA = some 1000 := by decide
    simp only [publishedValues, List.filterMap_cons, List.filterMap_nil,
      lineSeconds, h, Option.map_some']
    norm_num)

/-- Claim C5 is false as stated, in both halves.  First half: the line
time=1:2:3.4 time=00:00:05.00 contains the valid marker time=00:00:05.00
(h=0, m=0, s=5, cc=0), yet extraction returns 3723.04 (the leftmost,
one-digit-per-field pattern match), not 5.  Second half: the line
time=00:00:03x50 contains no valid time=HH:MM:SS.CC marker at all (it has
no dot), yet the unescaped-dot pattern matches it and progress changes. -/
theorem time_parse_claim_cex :
    (¬ ∀ (line : List Char) (h m s cc : ℕ), specMarkerPresent line h m s cc →
        lineSeconds line =
          some (((h * 3600 + m * 60 + s : ℕ) : ℚ) + (cc : ℚ) / 100)) ∧
    (¬ ∀ (line : List Char) (lines : List (List Char)) (T : ℚ),
        (∀ h m s cc : ℕ, ¬ specMarkerPresent line h m s cc) →
        publishedValues (line :: lines) T = publishedValues lines T) := by
  constructor
  · intro hA
    have hm : specMarkerPresent lineMixed 0 0 5 0 :=
      ⟨['0', '0'], ['0', '0'], ['0', '5'], ['0', '0'], rfl, rfl, rfl, rfl,
        by decide, by decide, by decide, by decide, by decide, by decide⟩
    have hval := hA lineMixed 0 0 5 0 hm
    have hmix : lineCentis lineMixed = some 372304 := by decide
    rw [lineSeconds, hmix] at hval
    simp only [Option.map_some', Option.some.injEq] at hval
    norm_num at hval
  · intro hB
    have hno : ∀ h m s cc : ℕ, ¬ specMarkerPresent lineNoDot h m s cc := by
      rintro h m s cc ⟨hs, ms, ss, cs, -, -, -, -, -, -, -, -, -, hsub⟩
      have hdot : '.' ∈ specMarkerString hs ms ss cs := by
        simp [specMarkerString, timeEq]
      have habs : '.' ∈ lineNoDot :=
        containsSeq_mem (specMarkerString hs ms ss cs) lineNoDot hsub '.' hdot
      revert habs
      decide
    have heq := hB lineNoDot [] 20 hno
    have hld : lineCentis lineNoDot = some 350 := by decide
    rw [publishedValues, publishedValues] at heq
    simp only [List.filterMap_cons, List.filterMap_nil, lineSeconds, hld,
      Option.map_some'] at heq
    exact List.cons_ne_nil _ _ heq

/-- Claim C5 (amended): for every line of the form
pre ++ time= ++ H ++ : ++ M ++ : ++ S ++ c ++ F ++ suf — where pre
contains no time= occurrence, H, M, S, F are nonempty digit runs, c is
any character other than a digit or a newline (the pattern has an
unescaped dot in place of the literal dot of the spec marker), and suf
does not begin with a digit — the extraction returns exactly
h*3600 + m*60 + s + f/100 seconds; and every line on which the pattern
finds no timestamp is ignored: it raises nothing and publishes no
progress value. -/
theorem time_parse_amended :
    (∀ (pre hs ms ss fs suf : List Char) (c : Char),
      containsTimeEq pre = false →
      hs ≠ [] → hs.all Char.isDigit = true →
      ms ≠ [] → ms.all Char.isDigit = true →
      ss ≠ [] → ss.all Char.isDigit = true →
      Char.isDigit c = false → c ≠ '\n' →
      fs ≠ [] → fs.all Char.isDigit = true →
      headNotDigit suf = true →
      lineSeconds
          (pre ++ (timeEq ++ (hs ++ ':' :: (ms ++ ':' :: (ss ++ c :: (fs ++ suf)))))) =
        some (((natOfDigits hs * 3600 + natOfDigits ms * 60 + natOfDigits ss : ℕ) : ℚ) +
          (natOfDigits fs : ℚ) / 100)) ∧
    (∀ (l : List Char) (lines : List (List Char)) (T : ℚ),
      lineSeconds l = none →
      publishedValues (l :: lines) T = publishedValues lines T) := by
  constructor
  · intro pre hs ms ss fs suf c h1 h2 h3 h4 h5 h6 h7 h8 h9 h10 h11 h12
    rw [lineSeconds,
      lineCentis_marker pre hs ms ss fs suf c h1 h2 h3 h4 h5 h6 h7 h8 h9 h10 h11 h12]
    simp only [Option.map_some', Option.some.injEq]
    push_cast
    field_simp
  · intro l lines T h
    simp [publishedValues, List.filterMap_cons, h]

/-- Witness for the amended C5: a realistic stderr line
frame= 99 time=00:01:02.45 bitrate, and a line with no match. -/
theorem time_parse_amended_witness :
    lineSeconds ("frame= 99 ".data ++ (timeEq ++ (['0', '0'] ++ ':' ::
        (['0', '1'] ++ ':' :: (['0', '2'] ++ '.' :: (['4', '5'] ++ " bitrate".data)))))) =
      some (((natOfDigits ['0', '0'] * 3600 + natOfDigits ['0', '1'] * 60 +
        natOfDigits ['0', '2'] : ℕ) : ℚ) + (natOfDigits ['4', '5'] : ℚ) / 100) ∧
    publishedValues ["no marker here".data] 20 = publishedValues [] 20 :=
  ⟨time_parse_amended.1 "frame= 99 ".data ['0', '0'] ['0', '1'] ['0', '2']
      ['4', '5'] " bitrate".data '.' (by decide) (by decide) (by decide)
      (by decide) (by decide) (by decide) (by decide) (by decide) (by decide)
      (by decide) (by decide) (by decide),
    time_parse_amended.2 "no marker here".data [] 20 (by decide)⟩

end ProcessVideos
